import Mathlib

/- Shallow embedding of src/credentials/ccache.go (Osirium/gokrb5).

   Bytes are Nat values (below 256 in any real buffer); a buffer is a List Nat.
   A Go panic (an out-of-bounds slice or index expression, or a negative
   make/slice length) is modelled as Option.none in the readers and as
   ParseResult.panic at the top level.  Signed machine integers are Int with
   an explicit two of-complement interpretation of the raw bytes.  The two
   iteration constructs of the source that are not structurally bounded by a
   count field (the version-4 header-field loop and the top-level credential
   loop) are given an explicit fuel argument; the fuel passed by the callers
   is proved sufficient below (parse_header_fields advances the offset by at
   least 4 per iteration while it stays at most the declared length, and
   parse_credential strictly advances the offset), so fuel exhaustion is
   unreachable and the embedding agrees with the source loop everywhere. -/

inductive Endian : Type
  | big
  | little
  deriving DecidableEq, Repr

/-- Two of-complement reading of one byte as a Go int8. -/
def toInt8 (x : Nat) : Int :=
  if x < 128 then (x : Int) else (x : Int) - 256

/-- Two of-complement reading of a 16-bit word as a Go int16. -/
def toInt16 (x : Nat) : Int :=
  if x < 32768 then (x : Int) else (x : Int) - 65536

/-- Two of-complement reading of a 32-bit word as a Go int32. -/
def toInt32 (x : Nat) : Int :=
  if x < 2147483648 then (x : Int) else (x : Int) - 4294967296

/-- The Go conversion uint16(i) of a signed value, i.e. reduction mod 2^16. -/
def toUint16 (i : Int) : Nat :=
  (i % 65536).toNat

/-- Combine two bytes given in address order into a 16-bit word. -/
def combine16 (e : Endian) (x y : Nat) : Nat :=
  match e with
  | Endian.big => x * 256 + y
  | Endian.little => y * 256 + x

/-- Combine four bytes given in address order into a 32-bit word. -/
def combine32 (e : Endian) (x y z w : Nat) : Nat :=
  match e with
  | Endian.big => ((x * 256 + y) * 256 + z) * 256 + w
  | Endian.little => ((w * 256 + z) * 256 + y) * 256 + x

/-- ccache.go read_int8: the slice b[p:p+1] panics (none) unless p+1 <= len b. -/
def read_int8 (b : List Nat) (p : Nat) (e : Endian) : Option (Int × Nat) :=
  if p + 1 ≤ b.length then some (toInt8 (b.getD p 0), p + 1) else none

/-- ccache.go read_int16. -/
def read_int16 (b : List Nat) (p : Nat) (e : Endian) : Option (Int × Nat) :=
  if p + 2 ≤ b.length then
    some (toInt16 (combine16 e (b.getD p 0) (b.getD (p + 1) 0)), p + 2)
  else none

/-- ccache.go read_int32. -/
def read_int32 (b : List Nat) (p : Nat) (e : Endian) : Option (Int × Nat) :=
  if p + 4 ≤ b.length then
    some (toInt32 (combine32 e (b.getD p 0) (b.getD (p + 1) 0) (b.getD (p + 2) 0)
      (b.getD (p + 3) 0)), p + 4)
  else none

/-- ccache.go read_Bytes: the count s is a Go int (possibly negative, coming
    from an int32); b[p:p+s] panics when s < 0 or p+s exceeds the length. -/
def read_Bytes (b : List Nat) (p : Nat) (s : Int) (e : Endian) : Option (List Nat × Nat) :=
  if 0 ≤ s ∧ p + s.toNat ≤ b.length then
    some ((b.drop p).take s.toNat, p + s.toNat)
  else none

/-- ccache.go read_data: a 32-bit length followed by that many raw bytes. -/
def read_data (b : List Nat) (p : Nat) (e : Endian) : Option (List Nat × Nat) :=
  match read_int32 b p e with
  | none => none
  | some (l, p1) => read_Bytes b p1 l e

/-- ccache.go read_timestamp: time.Unix over the int32 read; we keep the
    seconds value itself. -/
def read_timestamp (b : List Nat) (p : Nat) (e : Endian) : Option (Int × Nat) :=
  read_int32 b p e

structure PrincipalName where
  NameType : Int
  NameString : List (List Nat)
  deriving DecidableEq, Repr

structure principal where
  Realm : List Nat
  PrincipalName : PrincipalName
  deriving DecidableEq, Repr

structure EncryptionKey where
  KeyType : Int
  KeyValue : List Nat
  deriving DecidableEq, Repr

structure HostAddress where
  AddrType : Int
  Address : List Nat
  deriving DecidableEq, Repr

structure AuthorizationDataEntry where
  ADType : Int
  ADData : List Nat
  deriving DecidableEq, Repr

structure credential where
  Client : principal
  Server : principal
  Key : EncryptionKey
  AuthTime : Int
  StartTime : Int
  EndTime : Int
  RenewTill : Int
  IsSKey : Bool
  TicketFlags : List Nat
  Addresses : List HostAddress
  AuthData : List AuthorizationDataEntry
  Ticket : List Nat
  SecondTicket : List Nat
  deriving DecidableEq, Repr

structure headerField where
  tag : Nat
  length : Nat
  value : List Nat
  deriving DecidableEq, Repr

structure header where
  length : Nat
  fields : List headerField
  deriving DecidableEq, Repr

/- The Path field of the source CCache struct is caller-supplied provenance,
   never read by the decoder; it is omitted here. -/
structure CCache where
  Version : Nat
  Header : header
  DefaultPrincipal : principal
  Credentials : List credential
  deriving DecidableEq, Repr

def headerFieldTagKDCOffset : Nat := 1

/-- ccache.go headerField.valid. -/
def headerField.valid (h : headerField) : Bool :=
  if h.tag = headerFieldTagKDCOffset then
    if h.length ≠ 8 ∨ h.value.length ≠ 8 then false else true
  else false

/-- The error values produced by ParseCCache and parse_header (errors.New
    strings in the source, one constructor per distinct message). -/
inductive CCacheError : Type
  | malformedMagic
  | unsupportedVersion
  | headerNotVersionFour
  | invalidHeaderField
  deriving DecidableEq, Repr

/-- Outcome of ParseCCache: the Go function returns the pair (c, err), so a
    failing call still carries a CCache value; an out-of-bounds access is a
    crash of the process, modelled as panic. -/
inductive ParseResult : Type
  | ok : CCache → ParseResult
  | fail : CCache → CCacheError → ParseResult
  | panic : ParseResult
  deriving DecidableEq, Repr

def zeroPrincipalName : PrincipalName := { NameType := 0, NameString := [] }

def zeroPrincipal : principal := { Realm := [], PrincipalName := zeroPrincipalName }

def zeroHeader : header := { length := 0, fields := [] }

def zeroCCache : CCache :=
  { Version := 0, Header := zeroHeader, DefaultPrincipal := zeroPrincipal, Credentials := [] }

def zeroEncryptionKey : EncryptionKey := { KeyType := 0, KeyValue := [] }

def zeroCredential : credential :=
  { Client := zeroPrincipal, Server := zeroPrincipal, Key := zeroEncryptionKey,
    AuthTime := 0, StartTime := 0, EndTime := 0, RenewTill := 0, IsSKey := false,
    TicketFlags := [], Addresses := [], AuthData := [], Ticket := [], SecondTicket := [] }

/-- ccache.go isNativeEndianLittle.  The probe inspects the lowest-addressed
    byte of the in-memory representation of the constant 0x012345678 on the
    host; that byte (bp[0] in the source) is the parameter bp0 here, since
    host memory layout has no other shallow representation.  The source
    compares it with 0x01 and with 0x78 and defaults to big-endian. -/
def isNativeEndianLittle (bp0 : Nat) : Bool :=
  if bp0 = 1 then false
  else if bp0 = 120 then true
  else false

/-- Byte-order selection of ParseCCache lines 100-105: big-endian always,
    except native little-endian hosts for versions 1 and 2. -/
def pickEndian (v : Nat) (bp0 : Nat) : Endian :=
  if (v = 1 ∨ v = 2) ∧ isNativeEndianLittle bp0 then Endian.little else Endian.big

/-- The loop of ccache.go parse_header: while p <= h.length, read a tag, a
    length, and that many value bytes, check validity, append.  Each
    iteration advances p by at least 4 while p <= hl, so hl+1 units of fuel
    are sufficient (see parse_header_fields_fuel_sufficient below). -/
def parse_header_fields (b : List Nat) (e : Endian) (hl : Nat) :
    Nat → Nat → List headerField → Option (Except CCacheError (List headerField × Nat))
  | 0, p, acc => if p ≤ hl then none else some (Except.ok (acc, p))
  | fuel + 1, p, acc =>
    if p ≤ hl then
      match read_int16 b p e with
      | none => none
      | some (tagv, p1) =>
        match read_int16 b p1 e with
        | none => none
        | some (lenv, p2) =>
          let flen := toUint16 lenv
          if p2 + flen ≤ b.length then
            let f : headerField :=
              { tag := toUint16 tagv, length := flen, value := (b.drop p2).take flen }
            if f.valid then parse_header_fields b e hl fuel (p2 + flen) (acc ++ [f])
            else some (Except.error CCacheError.invalidHeaderField)
          else none
    else some (Except.ok (acc, p))

/-- ccache.go parse_header. -/
def parse_header (b : List Nat) (p : Nat) (v : Nat) (e : Endian) :
    Option (Except CCacheError (header × Nat)) :=
  if v ≠ 4 then some (Except.error CCacheError.headerNotVersionFour)
  else
    match read_int16 b p e with
    | none => none
    | some (hlRaw, p1) =>
      let hl := toUint16 hlRaw
      match parse_header_fields b e hl (hl + 1) p1 [] with
      | none => none
      | some (Except.error er) => some (Except.error er)
      | some (Except.ok (fs, p2)) => some (Except.ok ({ length := hl, fields := fs }, p2))

/-- The name-component loop of ccache.go parse_principal: n repetitions of a
    32-bit length followed by that many bytes. -/
def parse_components (b : List Nat) (e : Endian) :
    Nat → Nat → List (List Nat) → Option (List (List Nat) × Nat)
  | 0, p, acc => some (acc, p)
  | n + 1, p, acc =>
    match read_int32 b p e with
    | none => none
    | some (l, p1) =>
      match read_Bytes b p1 l e with
      | none => none
      | some (s, p2) => parse_components b e n p2 (acc ++ [s])

/-- ccache.go parse_principal.  For version 1 the name type is not read (it
    keeps the Go zero value 0) and the comp0nent count is decremented by one;
    the loop runs int(nc) times, i.e. nc.toNat times since a Go for loop with
    a negative bound runs zero times. -/
def parse_principal (b : List Nat) (p : Nat) (v : Nat) (e : Endian) :
    Option (principal × Nat) :=
  match (if v ≠ 1 then read_int32 b p e else some ((0 : Int), p)) with
  | none => none
  | some (nt, p1) =>
    match read_int32 b p1 e with
    | none => none
    | some (ncRaw, p2) =>
      let nc : Int := if v = 1 then ncRaw - 1 else ncRaw
      match read_int32 b p2 e with
      | none => none
      | some (lenRealm, p3) =>
        match read_Bytes b p3 lenRealm e with
        | none => none
        | some (realm, p4) =>
          match parse_components b e nc.toNat p4 [] with
          | none => none
          | some (comps, p5) =>
            some ({ Realm := realm,
                    PrincipalName := { NameType := nt, NameString := comps } }, p5)

/-- ccache.go read_address. -/
def read_address (b : List Nat) (p : Nat) (e : Endian) : Option (HostAddress × Nat) :=
  match read_int16 b p e with
  | none => none
  | some (t, p1) =>
    match read_data b p1 e with
    | none => none
    | some (d, p2) => some ({ AddrType := t, Address := d }, p2)

/-- ccache.go read_authDataEntry. -/
def read_authDataEntry (b : List Nat) (p : Nat) (e : Endian) :
    Option (AuthorizationDataEntry × Nat) :=
  match read_int16 b p e with
  | none => none
  | some (t, p1) =>
    match read_data b p1 e with
    | none => none
    | some (d, p2) => some ({ ADType := t, ADData := d }, p2)

/-- The host-address loop of parse_credential (make + index-assign in the
    source is sequential construction). -/
def parse_addresses (b : List Nat) (e : Endian) :
    Nat → Nat → List HostAddress → Option (List HostAddress × Nat)
  | 0, p, acc => some (acc, p)
  | n + 1, p, acc =>
    match read_address b p e with
    | none => none
    | some (a, p1) => parse_addresses b e n p1 (acc ++ [a])

/-- The authorization-data loop of parse_credential. -/
def parse_authdata (b : List Nat) (e : Endian) :
    Nat → Nat → List AuthorizationDataEntry → Option (List AuthorizationDataEntry × Nat)
  | 0, p, acc => some (acc, p)
  | n + 1, p, acc =>
    match read_authDataEntry b p e with
    | none => none
    | some (a, p1) => parse_authdata b e n p1 (acc ++ [a])

/-- ccache.go parse_credential.  The key type is read once, and for version 3
    a second time with the second read overwriting the first.  A negative
    address or auth-data count makes the Go make() call panic. -/
def parse_credential (b : List Nat) (p : Nat) (v : Nat) (e : Endian) :
    Option (credential × Nat) :=
  match parse_principal b p v e with
  | none => none
  | some (client, p1) =>
    match parse_principal b p1 v e with
    | none => none
    | some (server, p2) =>
      match read_int16 b p2 e with
      | none => none
      | some (kt1, p3) =>
        match (if v = 3 then read_int16 b p3 e else some (kt1, p3)) with
        | none => none
        | some (kt, p4) =>
          match read_data b p4 e with
          | none => none
          | some (kv, p5) =>
            match read_timestamp b p5 e with
            | none => none
            | some (authTime, p6) =>
              match read_timestamp b p6 e with
              | none => none
              | some (startTime, p7) =>
                match read_timestamp b p7 e with
                | none => none
                | some (endTime, p8) =>
                  match read_timestamp b p8 e with
                  | none => none
                  | some (renewTill, p9) =>
                    match read_int8 b p9 e with
                    | none => none
                    | some (ik, p10) =>
                      match read_Bytes b p10 4 e with
                      | none => none
                      | some (tf, p11) =>
                        match read_int32 b p11 e with
                        | none => none
                        | some (nAddr, p12) =>
                          if nAddr < 0 then none
                          else
                            match parse_addresses b e nAddr.toNat p12 [] with
                            | none => none
                            | some (addrs, p13) =>
                              match read_int32 b p13 e with
                              | none => none
                              | some (nAuth, p14) =>
                                if nAuth < 0 then none
                                else
                                  match parse_authdata b e nAuth.toNat p14 [] with
                                  | none => none
                                  | some (ads, p15) =>
                                    match read_data b p15 e with
                                    | none => none
                                    | some (tkt, p16) =>
                                      match read_data b p16 e with
                                      | none => none
                                      | some (tkt2, p17) =>
                                        let cred : credential :=
                                          { Client := client, Server := server,
                                            Key := { KeyType := kt, KeyValue := kv },
                                            AuthTime := authTime, StartTime := startTime,
                                            EndTime := endTime, RenewTill := renewTill,
                                            IsSKey := (if ik = 0 then false else true),
                                            TicketFlags := tf, Addresses := addrs,
                                            AuthData := ads, Ticket := tkt,
                                            SecondTicket := tkt2 }
                                        some (cred, p17)

/-- The top-level credential loop of ParseCCache: while p < len b, parse one
    credential and append it.  parse_credential strictly advances p whenever
    it succeeds (parse_credential_advances below), so fuel len b + 1 is
    sufficient and the fuel-exhaustion arm is unreachable. -/
def parse_credentials (b : List Nat) (v : Nat) (e : Endian) :
    Nat → Nat → List credential → Option (List credential × Nat)
  | 0, p, acc => if p < b.length then none else some (acc, p)
  | fuel + 1, p, acc =>
    if p < b.length then
      match parse_credential b p v e with
      | none => none
      | some (cred, p1) => parse_credentials b v e fuel p1 (acc ++ [cred])
    else some (acc, p)

/-- The body of ParseCCache after the magic and version bytes have been read
    successfully (offset 2). -/
def parseVersioned (bp0 : Nat) (b : List Nat) (v : Nat) : ParseResult :=
  if v < 1 ∨ 4 < v then
    ParseResult.fail { zeroCCache with Version := v } CCacheError.unsupportedVersion
  else
    let e := pickEndian v bp0
    match (if v = 4 then parse_header b 2 v e else some (Except.ok (zeroHeader, 2))) with
    | none => ParseResult.panic
    | some (Except.error er) =>
      ParseResult.fail { zeroCCache with Version := v } er
    | some (Except.ok (hd, p1)) =>
      match parse_principal b p1 v e with
      | none => ParseResult.panic
      | some (princ, p2) =>
        match parse_credentials b v e (b.length + 1) p2 [] with
        | none => ParseResult.panic
        | some (creds, _) =>
          ParseResult.ok { Version := v, Header := hd, DefaultPrincipal := princ,
                           Credentials := creds }

/-- ccache.go ParseCCache.  b[0] with an empty buffer and b[1] with a
    one-byte buffer are index panics; bp0 parameterises the host endianness
    probe as in isNativeEndianLittle. -/
def ParseCCache (bp0 : Nat) (b : List Nat) : ParseResult :=
  if 1 ≤ b.length then
    if b.getD 0 0 ≠ 5 then ParseResult.fail zeroCCache CCacheError.malformedMagic
    else if 2 ≤ b.length then parseVersioned bp0 b (b.getD 1 0)
    else ParseResult.panic
  else ParseResult.panic

/-- The byte string X-CACHECONF used by GetEntries to recognise
    configuration pseudo-entries. -/
def cacheconfMarker : List Nat := [88, 45, 67, 65, 67, 72, 69, 67, 79, 78, 70]

/-- Modelled from the spec: the external principal-name equality predicate
    (types.PrincipalName.Equal lives in the types package of this repository,
    which is not under src/); the spec describes it as a component-wise and
    type-aware comparison. -/
def PrincipalName.Equal (a b : PrincipalName) : Bool :=
  a.NameType == b.NameType && a.NameString == b.NameString

/-- The loop of ccache.go Contains. -/
def containsLoop (pn : PrincipalName) : List credential → Bool
  | [] => false
  | cr :: rest =>
    if PrincipalName.Equal cr.Server.PrincipalName pn then true else containsLoop pn rest

/-- ccache.go CCache.Contains. -/
def CCache.Contains (c : CCache) (pn : PrincipalName) : Bool :=
  containsLoop pn c.Credentials

/-- The loop of ccache.go GetEntry: first match wins, otherwise the zero
    credential and false. -/
def getEntryLoop (pn : PrincipalName) : List credential → credential × Bool
  | [] => (zeroCredential, false)
  | cr :: rest =>
    if PrincipalName.Equal cr.Server.PrincipalName pn then (cr, true) else getEntryLoop pn rest

/-- ccache.go CCache.GetEntry. -/
def CCache.GetEntry (c : CCache) (pn : PrincipalName) : credential × Bool :=
  getEntryLoop pn c.Credentials

/-- The loop of ccache.go GetEntries with its append accumulator. -/
def entriesLoop : List credential → List credential → List credential
  | [], acc => acc
  | cr :: rest, acc =>
    if cacheconfMarker.isPrefixOf cr.Server.Realm then entriesLoop rest acc
    else entriesLoop rest (acc ++ [cr])

/-- ccache.go CCache.GetEntries. -/
def CCache.GetEntries (c : CCache) : List credential :=
  entriesLoop c.Credentials []

/- Concrete byte buffers used to exercise the decoder.  These encoders are
   test-vector builders only; they are not part of the embedding of the
   source. -/

/-- Big-endian encoding of a 16-bit value. -/
def be16 (n : Nat) : List Nat := [n / 256 % 256, n % 256]

/-- Big-endian encoding of a 32-bit value. -/
def be32 (n : Nat) : List Nat := [n / 16777216 % 256, n / 65536 % 256, n / 256 % 256, n % 256]

/-- Little-endian encoding of a 32-bit value. -/
def le32 (n : Nat) : List Nat := [n % 256, n / 256 % 256, n / 65536 % 256, n / 16777216 % 256]

/-- A version greater-equal 2 principal with name type 0, zero components and
    an empty realm: twelve zero bytes. -/
def zeroP12 : List Nat := be32 0 ++ be32 0 ++ be32 0

/-- A minimal credential record (all-zero principals, empty key value, zero
    timestamps, no addresses, no auth data, empty tickets) whose key-type
    field bytes are the argument. -/
def credBytes (kt : List Nat) : List Nat :=
  zeroP12 ++ zeroP12 ++ kt ++ be32 0 ++ be32 0 ++ be32 0 ++ be32 0 ++ be32 0 ++
    [0] ++ [0, 0, 0, 0] ++ be32 0 ++ be32 0 ++ be32 0 ++ be32 0

/-- A valid version-2 buffer holding one minimal credential. -/
def c1buf : List Nat := [5, 2] ++ zeroP12 ++ credBytes (be16 1)

/-- The minimal credential with a given key type. -/
def minCred (kt : Int) : credential :=
  { zeroCredential with
      Key := { KeyType := kt, KeyValue := [] },
      TicketFlags := [0, 0, 0, 0] }

/-- The cache decoded from c1buf. -/
def c1cache : CCache :=
  { Version := 2, Header := zeroHeader, DefaultPrincipal := zeroPrincipal,
    Credentials := [minCred 1] }

/-- Version-1 buffer (bytes in little-endian order as on a little-endian
    host): component count 2 including the realm, realm TEST, one component
    host. -/
def c4buf : List Nat :=
  [5, 1] ++ le32 2 ++ le32 4 ++ [84, 69, 83, 84] ++ le32 4 ++ [104, 111, 115, 116]

/-- The principal decoded from c4buf. -/
def c4principal : principal :=
  { Realm := [84, 69, 83, 84],
    PrincipalName := { NameType := 0, NameString := [[104, 111, 115, 116]] } }

/-- Version-3 credential bytes whose two key-type fields are 7 and 9. -/
def c5v3cred : List Nat := credBytes (be16 7 ++ be16 9)

/-- Version-2 credential bytes with single key-type field 7. -/
def c5v2cred : List Nat := credBytes (be16 7)

/-- A valid version-4 header field: tag 1, length 8, eight zero bytes. -/
def hfield18bytes : List Nat := be16 1 ++ be16 8 ++ [0, 0, 0, 0, 0, 0, 0, 0]

/-- The decoded form of hfield18bytes. -/
def hfield18 : headerField := { tag := 1, length := 8, value := [0, 0, 0, 0, 0, 0, 0, 0] }

/-- Version-4 buffer whose declared header length 16 lands exactly on the end
    of its first field (offsets 4 to 15), followed by a second well-formed
    field and a minimal principal. -/
def c6buf : List Nat := [5, 4] ++ be16 16 ++ hfield18bytes ++ hfield18bytes ++ zeroP12

/-- Version-4 buffer whose single header field declares length 7 (tag 1). -/
def c7buf7 : List Nat := [5, 4] ++ be16 15 ++ be16 1 ++ be16 7 ++ [0, 0, 0, 0, 0, 0, 0]

/-- Version-4 buffer whose single header field has tag 2 with length 8. -/
def c7bufTag2 : List Nat :=
  [5, 4] ++ be16 15 ++ be16 2 ++ be16 8 ++ [0, 0, 0, 0, 0, 0, 0, 0]

/-- Version-4 buffer with declared header length 3 (less than the offset 4 at
    which the field loop starts) followed by a minimal principal. -/
def c10buf : List Nat := [5, 4] ++ be16 3 ++ zeroP12

/-- A credential whose server realm starts with the configuration marker. -/
def confCred : credential :=
  { zeroCredential with
      Server := { Realm := cacheconfMarker ++ [58],
                  PrincipalName := { NameType := 0, NameString := [[99]] } } }

/-- A credential with an ordinary server realm. -/
def plainCred : credential :=
  { zeroCredential with
      Server := { Realm := [69, 88],
                  PrincipalName := { NameType := 0, NameString := [[115]] } } }

/-- A cache holding one configuration pseudo-entry and one ordinary entry. -/
def c9cache : CCache :=
  { Version := 4, Header := zeroHeader, DefaultPrincipal := zeroPrincipal,
    Credentials := [confCred, plainCred] }

/- Cursor-position lemmas: every successful primitive read returns the
   advanced offset, and every successful compound parse advances the offset
   monotonically.  These justify the fuel bounds chosen above. -/

theorem read_int8_snd {b : List Nat} {p : Nat} {e : Endian} {v : Int} {p2 : Nat}
    (h : read_int8 b p e = some (v, p2)) : p2 = p + 1 := by
  unfold read_int8 at h
  split at h
  · injection h with h
    injection h with h1 h2
    exact h2.symm
  · exact Option.noConfusion h

theorem read_int16_snd {b : List Nat} {p : Nat} {e : Endian} {v : Int} {p2 : Nat}
    (h : read_int16 b p e = some (v, p2)) : p2 = p + 2 := by
  unfold read_int16 at h
  split at h
  · injection h with h
    injection h with h1 h2
    exact h2.symm
  · exact Option.noConfusion h

theorem read_int32_snd {b : List Nat} {p : Nat} {e : Endian} {v : Int} {p2 : Nat}
    (h : read_int32 b p e = some (v, p2)) : p2 = p + 4 := by
  unfold read_int32 at h
  split at h
  · injection h with h
    injection h with h1 h2
    exact h2.symm
  · exact Option.noConfusion h

theorem read_timestamp_snd {b : List Nat} {p : Nat} {e : Endian} {v : Int} {p2 : Nat}
    (h : read_timestamp b p e = some (v, p2)) : p2 = p + 4 := by
  unfold read_timestamp at h
  exact read_int32_snd h

theorem read_Bytes_snd {b : List Nat} {p : Nat} {s : Int} {e : Endian} {v : List Nat}
    {p2 : Nat} (h : read_Bytes b p s e = some (v, p2)) : p2 = p + s.toNat := by
  unfold read_Bytes at h
  split at h
  · injection h with h
    injection h with h1 h2
    exact h2.symm
  · exact Option.noConfusion h

theorem read_data_ge {b : List Nat} {p : Nat} {e : Endian} {v : List Nat} {p2 : Nat}
    (h : read_data b p e = some (v, p2)) : p + 4 ≤ p2 := by
  unfold read_data at h
  rcases h1 : read_int32 b p e with _ | ⟨l, p1⟩
  · rw [h1] at h
    exact Option.noConfusion h
  · rw [h1] at h
    simp only [] at h
    have h2 := read_int32_snd h1
    have h3 := read_Bytes_snd h
    omega

theorem read_address_ge {b : List Nat} {p : Nat} {e : Endian} {a : HostAddress} {p2 : Nat}
    (h : read_address b p e = some (a, p2)) : p + 6 ≤ p2 := by
  unfold read_address at h
  rcases h1 : read_int16 b p e with _ | ⟨t, p1⟩
  · rw [h1] at h
    exact Option.noConfusion h
  · rw [h1] at h
    simp only [] at h
    rcases h2 : read_data b p1 e with _ | ⟨d, pd⟩
    · rw [h2] at h
      exact Option.noConfusion h
    · rw [h2] at h
      simp only [] at h
      injection h with h
      injection h with ha hp
      have := read_int16_snd h1
      have := read_data_ge h2
      omega

theorem read_authDataEntry_ge {b : List Nat} {p : Nat} {e : Endian}
    {a : AuthorizationDataEntry} {p2 : Nat}
    (h : read_authDataEntry b p e = some (a, p2)) : p + 6 ≤ p2 := by
  unfold read_authDataEntry at h
  rcases h1 : read_int16 b p e with _ | ⟨t, p1⟩
  · rw [h1] at h
    exact Option.noConfusion h
  · rw [h1] at h
    simp only [] at h
    rcases h2 : read_data b p1 e with _ | ⟨d, pd⟩
    · rw [h2] at h
      exact Option.noConfusion h
    · rw [h2] at h
      simp only [] at h
      injection h with h
      injection h with ha hp
      have := read_int16_snd h1
      have := read_data_ge h2
      omega

theorem parse_components_ge {b : List Nat} {e : Endian} :
    ∀ n p acc cs p2, parse_components b e n p acc = some (cs, p2) → p ≤ p2 := by
  intro n
  induction n with
  | zero =>
    intro p acc cs p2 h
    simp only [parse_components] at h
    injection h with h
    injection h with h1 h2
    omega
  | succ n ih =>
    intro p acc cs p2 h
    simp only [parse_components] at h
    rcases h1 : read_int32 b p e with _ | ⟨l, p1⟩
    · rw [h1] at h
      exact Option.noConfusion h
    rw [h1] at h
    simp only [] at h
    rcases h2 : read_Bytes b p1 l e with _ | ⟨s, ps⟩
    · rw [h2] at h
      exact Option.noConfusion h
    rw [h2] at h
    simp only [] at h
    have h3 := read_int32_snd h1
    have h4 := read_Bytes_snd h2
    have h5 := ih ps (acc ++ [s]) cs p2 h
    omega

theorem parse_components_length {b : List Nat} {e : Endian} :
    ∀ n p acc cs p2, parse_components b e n p acc = some (cs, p2) →
      cs.length = acc.length + n := by
  intro n
  induction n with
  | zero =>
    intro p acc cs p2 h
    simp only [parse_components] at h
    injection h with h
    injection h with h1 h2
    subst h1
    omega
  | succ n ih =>
    intro p acc cs p2 h
    simp only [parse_components] at h
    rcases h1 : read_int32 b p e with _ | ⟨l, p1⟩
    · rw [h1] at h
      exact Option.noConfusion h
    rw [h1] at h
    simp only [] at h
    rcases h2 : read_Bytes b p1 l e with _ | ⟨s, ps⟩
    · rw [h2] at h
      exact Option.noConfusion h
    rw [h2] at h
    simp only [] at h
    have h5 := ih ps (acc ++ [s]) cs p2 h
    simp [List.length_append] at h5
    omega

theorem ntStep_ge {b : List Nat} {p : Nat} {v : Nat} {e : Endian} {nt : Int} {p1 : Nat}
    (h : (if v ≠ 1 then read_int32 b p e else some ((0 : Int), p)) = some (nt, p1)) :
    p ≤ p1 := by
  split at h
  · have := read_int32_snd h
    omega
  · injection h with h
    injection h with h1 h2
    omega

theorem parse_principal_ge {b : List Nat} {p : Nat} {v : Nat} {e : Endian}
    {pr : principal} {p5 : Nat}
    (h : parse_principal b p v e = some (pr, p5)) : p + 8 ≤ p5 := by
  unfold parse_principal at h
  rcases h1 : (if v ≠ 1 then read_int32 b p e else some ((0 : Int), p)) with _ | ⟨nt, p1⟩
  · rw [h1] at h
    exact Option.noConfusion h
  rw [h1] at h
  simp only [] at h
  rcases h2 : read_int32 b p1 e with _ | ⟨ncRaw, p2⟩
  · rw [h2] at h
    exact Option.noConfusion h
  rw [h2] at h
  simp only [] at h
  rcases h3 : read_int32 b p2 e with _ | ⟨lenRealm, p3⟩
  · rw [h3] at h
    exact Option.noConfusion h
  rw [h3] at h
  simp only [] at h
  rcases h4 : read_Bytes b p3 lenRealm e with _ | ⟨realm, p4⟩
  · rw [h4] at h
    exact Option.noConfusion h
  rw [h4] at h
  simp only [] at h
  rcases h5 : parse_components b e (if v = 1 then ncRaw - 1 else ncRaw).toNat p4 []
      with _ | ⟨comps, pc⟩
  · rw [h5] at h
    exact Option.noConfusion h
  rw [h5] at h
  simp only [] at h
  injection h with h
  injection h with ha hb
  have g1 := ntStep_ge h1
  have g2 := read_int32_snd h2
  have g3 := read_int32_snd h3
  have g4 := read_Bytes_snd h4
  have g5 := parse_components_ge _ _ _ _ _ h5
  omega

theorem ktStep_ge {b : List Nat} {v : Nat} {e : Endian} {kt1 kt : Int} {p3 p4 : Nat}
    (h : (if v = 3 then read_int16 b p3 e else some (kt1, p3)) = some (kt, p4)) :
    p3 ≤ p4 := by
  split at h
  · have := read_int16_snd h
    omega
  · injection h with h
    injection h with h1 h2
    omega

theorem parse_addresses_ge {b : List Nat} {e : Endian} :
    ∀ n p acc cs p2, parse_addresses b e n p acc = some (cs, p2) → p ≤ p2 := by
  intro n
  induction n with
  | zero =>
    intro p acc cs p2 h
    simp only [parse_addresses] at h
    injection h with h
    injection h with h1 h2
    omega
  | succ n ih =>
    intro p acc cs p2 h
    simp only [parse_addresses] at h
    rcases h1 : read_address b p e with _ | ⟨a, p1⟩
    · rw [h1] at h
      exact Option.noConfusion h
    rw [h1] at h
    simp only [] at h
    have h3 := read_address_ge h1
    have h5 := ih p1 (acc ++ [a]) cs p2 h
    omega

theorem parse_authdata_ge {b : List Nat} {e : Endian} :
    ∀ n p acc cs p2, parse_authdata b e n p acc = some (cs, p2) → p ≤ p2 := by
  intro n
  induction n with
  | zero =>
    intro p acc cs p2 h
    simp only [parse_authdata] at h
    injection h with h
    injection h with h1 h2
    omega
  | succ n ih =>
    intro p acc cs p2 h
    simp only [parse_authdata] at h
    rcases h1 : read_authDataEntry b p e with _ | ⟨a, p1⟩
    · rw [h1] at h
      exact Option.noConfusion h
    rw [h1] at h
    simp only [] at h
    have h3 := read_authDataEntry_ge h1
    have h5 := ih p1 (acc ++ [a]) cs p2 h
    omega

/-- A successful parse_credential strictly advances the cursor, so the
    credential loop of ParseCCache makes progress on every iteration. -/
theorem parse_credential_advances {b : List Nat} {p : Nat} {v : Nat} {e : Endian}
    {cred : credential} {pf : Nat}
    (h : parse_credential b p v e = some (cred, pf)) : p < pf := by
  unfold parse_credential at h
  rcases h1 : parse_principal b p v e with _ | ⟨client, p1⟩
  · rw [h1] at h
    exact Option.noConfusion h
  rw [h1] at h
  simp only [] at h
  rcases h2 : parse_principal b p1 v e with _ | ⟨server, p2⟩
  · rw [h2] at h
    exact Option.noConfusion h
  rw [h2] at h
  simp only [] at h
  rcases h3 : read_int16 b p2 e with _ | ⟨kt1, p3⟩
  · rw [h3] at h
    exact Option.noConfusion h
  rw [h3] at h
  simp only [] at h
  rcases h4 : (if v = 3 then read_int16 b p3 e else some (kt1, p3)) with _ | ⟨kt, p4⟩
  · rw [h4] at h
    exact Option.noConfusion h
  rw [h4] at h
  simp only [] at h
  rcases h5 : read_data b p4 e with _ | ⟨kv, p5⟩
  · rw [h5] at h
    exact Option.noConfusion h
  rw [h5] at h
  simp only [] at h
  rcases h6 : read_timestamp b p5 e with _ | ⟨authTime, p6⟩
  · rw [h6] at h
    exact Option.noConfusion h
  rw [h6] at h
  simp only [] at h
  rcases h7 : read_timestamp b p6 e with _ | ⟨startTime, p7⟩
  · rw [h7] at h
    exact Option.noConfusion h
  rw [h7] at h
  simp only [] at h
  rcases h8 : read_timestamp b p7 e with _ | ⟨endTime, p8⟩
  · rw [h8] at h
    exact Option.noConfusion h
  rw [h8] at h
  simp only [] at h
  rcases h9 : read_timestamp b p8 e with _ | ⟨renewTill, p9⟩
  · rw [h9] at h
    exact Option.noConfusion h
  rw [h9] at h
  simp only [] at h
  rcases h10 : read_int8 b p9 e with _ | ⟨ik, p10⟩
  · rw [h10] at h
    exact Option.noConfusion h
  rw [h10] at h
  simp only [] at h
  rcases h11 : read_Bytes b p10 4 e with _ | ⟨tf, p11⟩
  · rw [h11] at h
    exact Option.noConfusion h
  rw [h11] at h
  simp only [] at h
  rcases h12 : read_int32 b p11 e with _ | ⟨nAddr, p12⟩
  · rw [h12] at h
    exact Option.noConfusion h
  rw [h12] at h
  simp only [] at h
  by_cases hna : nAddr < 0
  · rw [if_pos hna] at h
    exact Option.noConfusion h
  rw [if_neg hna] at h
  rcases h13 : parse_addresses b e nAddr.toNat p12 [] with _ | ⟨addrs, p13⟩
  · rw [h13] at h
    exact Option.noConfusion h
  rw [h13] at h
  simp only [] at h
  rcases h14 : read_int32 b p13 e with _ | ⟨nAuth, p14⟩
  · rw [h14] at h
    exact Option.noConfusion h
  rw [h14] at h
  simp only [] at h
  by_cases hnb : nAuth < 0
  · rw [if_pos hnb] at h
    exact Option.noConfusion h
  rw [if_neg hnb] at h
  rcases h15 : parse_authdata b e nAuth.toNat p14 [] with _ | ⟨ads, p15⟩
  · rw [h15] at h
    exact Option.noConfusion h
  rw [h15] at h
  simp only [] at h
  rcases h16 : read_data b p15 e with _ | ⟨tkt, p16⟩
  · rw [h16] at h
    exact Option.noConfusion h
  rw [h16] at h
  simp only [] at h
  rcases h17 : read_data b p16 e with _ | ⟨tkt2, p17⟩
  · rw [h17] at h
    exact Option.noConfusion h
  rw [h17] at h
  simp only [] at h
  injection h with h
  injection h with ha hb
  have g1 := parse_principal_ge h1
  have g2 := parse_principal_ge h2
  have g3 := read_int16_snd h3
  have g4 := ktStep_ge h4
  have g5 := read_data_ge h5
  have g6 := read_timestamp_snd h6
  have g7 := read_timestamp_snd h7
  have g8 := read_timestamp_snd h8
  have g9 := read_timestamp_snd h9
  have g10 := read_int8_snd h10
  have g11 := read_Bytes_snd h11
  have g12 := read_int32_snd h12
  have g13 := parse_addresses_ge _ _ _ _ _ h13
  have g14 := read_int32_snd h14
  have g15 := parse_authdata_ge _ _ _ _ _ h15
  have g16 := read_data_ge h16
  have g17 := read_data_ge h17
  omega

/-- The credential loop is insensitive to its fuel as long as the fuel
    exceeds the number of bytes left, because each iteration consumes at
    least one byte; with the caller fuel len b + 1 the exhaustion arm is
    therefore unreachable and the loop agrees with the unbounded source
    loop. -/
theorem parse_credentials_fuel_irrelevant {b : List Nat} {v : Nat} {e : Endian} :
    ∀ fuel fuel2 p acc, b.length < fuel + p → b.length < fuel2 + p →
      parse_credentials b v e fuel p acc = parse_credentials b v e fuel2 p acc := by
  intro fuel
  induction fuel with
  | zero =>
    intro fuel2 p acc hf hf2
    have hnp : ¬ p < b.length := by omega
    cases fuel2 with
    | zero => rfl
    | succ fuel2 => simp only [parse_credentials, if_neg hnp]
  | succ fuel ih =>
    intro fuel2 p acc hf hf2
    cases fuel2 with
    | zero =>
      have hnp : ¬ p < b.length := by omega
      simp only [parse_credentials, if_neg hnp]
    | succ fuel2 =>
      simp only [parse_credentials]
      by_cases hp : p < b.length
      · simp only [if_pos hp]
        rcases hc : parse_credential b p v e with _ | ⟨cred, p1⟩
        · rfl
        · simp only []
          have hadv := parse_credential_advances hc
          exact ih fuel2 p1 (acc ++ [cred]) (by omega) (by omega)
      · simp only [if_neg hp]

/-- A header-field loop that stops with ok never moved the cursor backwards. -/
theorem parse_header_fields_ge {b : List Nat} {e : Endian} {hl : Nat} :
    ∀ fuel p acc fs pf,
      parse_header_fields b e hl fuel p acc = some (Except.ok (fs, pf)) → p ≤ pf := by
  intro fuel
  induction fuel with
  | zero =>
    intro p acc fs pf h
    simp only [parse_header_fields] at h
    split at h
    · exact Option.noConfusion h
    · injection h with h
      injection h with h
      injection h with h1 h2
      omega
  | succ fuel ih =>
    intro p acc fs pf h
    simp only [parse_header_fields] at h
    split at h
    · rcases h16 : read_int16 b p e with _ | ⟨tagv, p1⟩
      · rw [h16] at h
        exact Option.noConfusion h
      rw [h16] at h
      simp only [] at h
      rcases h17 : read_int16 b p1 e with _ | ⟨lenv, p2⟩
      · rw [h17] at h
        exact Option.noConfusion h
      rw [h17] at h
      simp only [] at h
      split at h
      · split at h
        · have hrec := ih _ _ _ _ h
          have g1 := read_int16_snd h16
          have g2 := read_int16_snd h17
          omega
        · injection h with h
          exact Except.noConfusion h
      · exact Option.noConfusion h
    · injection h with h
      injection h with h
      injection h with h1 h2
      omega

/-- The header-field loop is insensitive to its fuel as long as the fuel
    exceeds the remaining distance to the declared length, because each
    iteration advances the cursor by at least four while it runs; the caller
    fuel hl + 1 always satisfies this, so the fuel-exhaustion arm is
    unreachable and the loop agrees with the unbounded source loop. -/
theorem parse_header_fields_fuel_irrelevant {b : List Nat} {e : Endian} {hl : Nat} :
    ∀ fuel fuel2 p acc, hl < fuel + p → hl < fuel2 + p →
      parse_header_fields b e hl fuel p acc = parse_header_fields b e hl fuel2 p acc := by
  intro fuel
  induction fuel with
  | zero =>
    intro fuel2 p acc hf hf2
    have hnp : ¬ p ≤ hl := by omega
    cases fuel2 with
    | zero => rfl
    | succ fuel2 => simp only [parse_header_fields, if_neg hnp]
  | succ fuel ih =>
    intro fuel2 p acc hf hf2
    cases fuel2 with
    | zero =>
      have hnp : ¬ p ≤ hl := by omega
      simp only [parse_header_fields, if_neg hnp]
    | succ fuel2 =>
      simp only [parse_header_fields]
      by_cases hp : p ≤ hl
      · simp only [if_pos hp]
        rcases h16 : read_int16 b p e with _ | ⟨tagv, p1⟩
        · rfl
        · simp only []
          rcases h17 : read_int16 b p1 e with _ | ⟨lenv, p2⟩
          · rfl
          · simp only []
            by_cases hb : p2 + toUint16 lenv ≤ b.length
            · simp only [if_pos hb]
              by_cases hv : headerField.valid
                  { tag := toUint16 tagv, length := toUint16 lenv,
                    value := (b.drop p2).take (toUint16 lenv) } = true
              · simp only [if_pos hv]
                have g1 := read_int16_snd h16
                have g2 := read_int16_snd h17
                exact ih fuel2 (p2 + toUint16 lenv) _ (by omega) (by omega)
              · simp only [if_neg hv]
            · simp only [if_neg hb]
      · simp only [if_neg hp]

/-- Any failing return of parseVersioned carries no header, principal or
    credential state (only the version field may be set). -/
theorem parseVersioned_fail {bp0 : Nat} {b : List Nat} {v : Nat} {c : CCache}
    {er : CCacheError} (h : parseVersioned bp0 b v = ParseResult.fail c er) :
    c.Credentials = [] ∧ c.Header = zeroHeader ∧ c.DefaultPrincipal = zeroPrincipal := by
  unfold parseVersioned at h
  split at h
  · injection h with h1 h2
    subst h1
    exact ⟨rfl, rfl, rfl⟩
  · simp only [] at h
    split at h
    · exact ParseResult.noConfusion h
    · injection h with h1 h2
      subst h1
      exact ⟨rfl, rfl, rfl⟩
    · split at h
      · exact ParseResult.noConfusion h
      · split at h
        · exact ParseResult.noConfusion h
        · exact ParseResult.noConfusion h

/-- Claim C2 (amended): whenever ParseCCache returns an error, the returned
    Cache carries no credentials, no header fields and no default principal;
    only the already-decoded version byte may be present in it. -/
theorem claim2_no_partial_state (bp0 : Nat) (b : List Nat) (c : CCache) (er : CCacheError)
    (h : ParseCCache bp0 b = ParseResult.fail c er) :
    c.Credentials = [] ∧ c.Header = zeroHeader ∧ c.DefaultPrincipal = zeroPrincipal := by
  unfold ParseCCache at h
  split at h
  · split at h
    · injection h with h1 h2
      subst h1
      exact ⟨rfl, rfl, rfl⟩
    · split at h
      · exact parseVersioned_fail h
      · exact ParseResult.noConfusion h
  · exact ParseResult.noConfusion h

/-- Witness for C2: the amended theorem applied to the failing input [5, 9]. -/
theorem claim2_no_partial_state_witness :
    ({ zeroCCache with Version := 9 } : CCache).Credentials = [] ∧
    ({ zeroCCache with Version := 9 } : CCache).Header = zeroHeader ∧
    ({ zeroCCache with Version := 9 } : CCache).DefaultPrincipal = zeroPrincipal :=
  claim2_no_partial_state 0 [5, 9] { zeroCCache with Version := 9 }
    CCacheError.unsupportedVersion (by decide)

/-- Claim C2 counterexample: on the failing input [5, 9] (magic ok, version 9
    unsupported) the Go function returns, together with the error, a Cache
    value whose Version field holds the decoded byte 9, so the returned Cache
    does carry decoded state. -/
theorem claim2_counterexample :
    ParseCCache 0 [5, 9] =
      ParseResult.fail { zeroCCache with Version := 9 } CCacheError.unsupportedVersion ∧
    ({ zeroCCache with Version := 9 } : CCache).Version ≠ zeroCCache.Version :=
  ⟨by decide, by decide⟩

/-- Claim C1: the readers of ccache.go index the buffer without bounds
    checks, so decoding a truncation of the valid buffer c1buf either crashes
    (truncation at offset 1: reading the version byte panics) or silently
    succeeds with a shortened Cache (truncation at offset 14, the end of the
    default principal: the credential is dropped); no TruncatedInput error
    exists in the code. -/
theorem claim1_truncation_behavior :
    ParseCCache 0 c1buf = ParseResult.ok c1cache ∧
    ParseCCache 0 (c1buf.take 1) = ParseResult.panic ∧
    ParseCCache 0 (c1buf.take 14) = ParseResult.ok { zeroCCache with Version := 2 } :=
  ⟨by decide, by decide, by decide⟩

/-- Claim C3: versions 3 and 4 always decode big-endian; versions 1 and 2
    use the byte order chosen by the native-endianness probe; the probe
    defaults to big-endian whenever the probed byte matches neither 0x01 nor
    0x78. -/
theorem claim3_endianness :
    (∀ bp0 : Nat, pickEndian 3 bp0 = Endian.big ∧ pickEndian 4 bp0 = Endian.big) ∧
    (∀ bp0 v : Nat, v = 1 ∨ v = 2 →
      pickEndian v bp0 = (if isNativeEndianLittle bp0 then Endian.little else Endian.big)) ∧
    (∀ bp0 : Nat, bp0 ≠ 1 → bp0 ≠ 120 → isNativeEndianLittle bp0 = false) := by
  refine ⟨?_, ?_, ?_⟩
  · intro bp0
    constructor <;> simp [pickEndian]
  · intro bp0 v hv
    unfold pickEndian
    by_cases hb : isNativeEndianLittle bp0 = true
    · rw [if_pos ⟨hv, hb⟩, if_pos hb]
    · rw [if_neg (fun hc => hb hc.2), if_neg hb]
  · intro bp0 hn1 hn2
    unfold isNativeEndianLittle
    rw [if_neg hn1, if_neg hn2]

/-- Witness for C3: the version-1 selection rule on a little-endian host and
    the big-endian default on an inconclusive probe byte 55. -/
theorem claim3_endianness_witness :
    pickEndian 1 120 = (if isNativeEndianLittle 120 then Endian.little else Endian.big) ∧
    isNativeEndianLittle 55 = false :=
  ⟨claim3_endianness.2.1 120 1 (Or.inl rfl), claim3_endianness.2.2 55 (by decide) (by decide)⟩

/-- Claim C8 (amended): for every nonempty buffer whose first byte is not 5,
    ParseCCache fails with the malformed-magic error regardless of the rest
    of the contents; the empty buffer instead panics (see the
    counterexample). -/
theorem claim8_nonempty_magic (bp0 : Nat) (b : List Nat) (h1 : 1 ≤ b.length)
    (h2 : b.getD 0 0 ≠ 5) :
    ParseCCache bp0 b = ParseResult.fail zeroCCache CCacheError.malformedMagic := by
  unfold ParseCCache
  rw [if_pos h1, if_pos h2]

/-- Witness for C8: the amended theorem applied to the one-byte buffer [7]. -/
theorem claim8_nonempty_magic_witness :
    ParseCCache 0 [7] = ParseResult.fail zeroCCache CCacheError.malformedMagic :=
  claim8_nonempty_magic 0 [7] (by decide) (by decide)

/-- Claim C8 counterexample: on the empty buffer (length zero, hence no first
    byte equal to 5) the source panics reading b[0] instead of returning the
    malformed-magic error. -/
theorem claim8_counterexample : ParseCCache 0 ([] : List Nat) = ParseResult.panic := by
  decide

theorem entriesLoop_eq (l acc : List credential) :
    entriesLoop l acc =
      acc ++ l.filter (fun cr => ! cacheconfMarker.isPrefixOf cr.Server.Realm) := by
  induction l generalizing acc with
  | nil => simp [entriesLoop]
  | cons cr rest ih =>
    simp only [entriesLoop]
    by_cases hm : cacheconfMarker.isPrefixOf cr.Server.Realm = true
    · rw [if_pos hm, ih]
      simp [List.filter_cons, hm]
    · rw [if_neg hm, ih]
      have hm2 : cacheconfMarker.isPrefixOf cr.Server.Realm = false := by
        cases hc : cacheconfMarker.isPrefixOf cr.Server.Realm
        · rfl
        · exact absurd (by simpa using hc) hm
      simp [List.filter_cons, hm2]

theorem containsLoop_eq (pn : PrincipalName) (l : List credential) :
    containsLoop pn l = l.any (fun cr => PrincipalName.Equal cr.Server.PrincipalName pn) := by
  induction l with
  | nil => simp [containsLoop]
  | cons cr rest ih =>
    simp only [containsLoop, List.any_cons]
    by_cases hm : PrincipalName.Equal cr.Server.PrincipalName pn = true
    · rw [if_pos hm]
      simp [hm]
    · rw [if_neg hm]
      simp_all

theorem getEntryLoop_eq (pn : PrincipalName) (l : List credential) :
    getEntryLoop pn l =
      (match l.find? (fun cr => PrincipalName.Equal cr.Server.PrincipalName pn) with
       | some cr => (cr, true)
       | none => (zeroCredential, false)) := by
  induction l with
  | nil => simp [getEntryLoop]
  | cons cr rest ih =>
    simp only [getEntryLoop, List.find?_cons]
    by_cases hm : PrincipalName.Equal cr.Server.PrincipalName pn = true
    · rw [if_pos hm]
      simp [hm]
    · rw [if_neg hm]
      simp_all

/-- Claim C9: GetEntries is exactly the file-order filter of the raw
    credential sequence that removes every credential whose server realm
    starts with X-CACHECONF, while Contains and GetEntry search the raw
    sequence unfiltered; concretely, on a cache whose first entry is a
    configuration pseudo-entry, GetEntries omits it but Contains and GetEntry
    still find it. -/
theorem claim9_entries_filter :
    (∀ c : CCache, c.GetEntries =
      c.Credentials.filter (fun cr => ! cacheconfMarker.isPrefixOf cr.Server.Realm)) ∧
    (∀ (c : CCache) (pn : PrincipalName), c.Contains pn =
      c.Credentials.any (fun cr => PrincipalName.Equal cr.Server.PrincipalName pn)) ∧
    (∀ (c : CCache) (pn : PrincipalName), c.GetEntry pn =
      (match c.Credentials.find? (fun cr => PrincipalName.Equal cr.Server.PrincipalName pn) with
       | some cr => (cr, true)
       | none => (zeroCredential, false))) ∧
    (c9cache.GetEntries = [plainCred] ∧
     c9cache.Contains confCred.Server.PrincipalName = true ∧
     c9cache.GetEntry confCred.Server.PrincipalName = (confCred, true)) := by
  refine ⟨?_, ?_, ?_, by decide, by decide, by decide⟩
  · intro c
    unfold CCache.GetEntries
    rw [entriesLoop_eq]
    simp
  · intro c pn
    exact containsLoop_eq pn c.Credentials
  · intro c pn
    exact getEntryLoop_eq pn c.Credentials

/-- Claim C10: the version-4 header-field loop compares the declared length
    against the cursor offset measured from the start of the whole buffer
    (the loop starts at offset 4, after the two magic/version bytes and the
    two length bytes), so any declared header length below 4 yields a
    successfully decoded header with zero fields. -/
theorem claim10_header_offset_from_buffer_start (b : List Nat) (e : Endian)
    (hlRaw : Int) (p1 : Nat) (h16 : read_int16 b 2 e = some (hlRaw, p1))
    (hlt : toUint16 hlRaw < 4) :
    parse_header b 2 4 e =
      some (Except.ok ({ length := toUint16 hlRaw, fields := [] }, p1)) ∧
    ParseCCache 0 c10buf = ParseResult.ok
      { Version := 4, Header := { length := 3, fields := [] },
        DefaultPrincipal := zeroPrincipal, Credentials := [] } := by
  constructor
  · have hp1 : p1 = 2 + 2 := read_int16_snd h16
    subst hp1
    unfold parse_header
    rw [if_neg (by decide : ¬ (4 : Nat) ≠ 4), h16]
    simp only []
    have hnp : ¬ (2 + 2 ≤ toUint16 hlRaw) := by omega
    simp only [parse_header_fields, if_neg hnp]
  · decide

/-- Witness for C10: the general statement applied to c10buf, whose declared
    header length is 3. -/
theorem claim10_witness :
    parse_header c10buf 2 4 Endian.big =
      some (Except.ok ({ length := 3, fields := [] }, 4)) := by
  have h := (claim10_header_offset_from_buffer_start c10buf Endian.big 3 4
    (by rfl) (by decide)).1
  exact h

/-- Claim C6: the header-field loop bound is non-strict (while p <= declared
    length), so whenever the loop is entered at an offset p that still
    satisfies p <= hl, at least one more field (at least 4 bytes) is consumed
    before the loop can stop with ok; concretely c6buf, whose declared length
    16 lands exactly on the end of its first field, decodes with a second
    field read starting at offset 16. -/
theorem claim6_nonstrict_header_bound :
    (∀ (b : List Nat) (e : Endian) (hl fuel p : Nat) (acc fs : List headerField) (pf : Nat),
      p ≤ hl →
      parse_header_fields b e hl fuel p acc = some (Except.ok (fs, pf)) →
      p + 4 ≤ pf) ∧
    ParseCCache 0 c6buf = ParseResult.ok
      { Version := 4, Header := { length := 16, fields := [hfield18, hfield18] },
        DefaultPrincipal := zeroPrincipal, Credentials := [] } := by
  constructor
  · intro b e hl fuel p acc fs pf hp h
    cases fuel with
    | zero =>
      simp only [parse_header_fields] at h
      rw [if_pos hp] at h
      exact Option.noConfusion h
    | succ fuel =>
      simp only [parse_header_fields] at h
      rw [if_pos hp] at h
      rcases h16 : read_int16 b p e with _ | ⟨tagv, p1⟩
      · rw [h16] at h
        exact Option.noConfusion h
      rw [h16] at h
      simp only [] at h
      rcases h17 : read_int16 b p1 e with _ | ⟨lenv, p2⟩
      · rw [h17] at h
        exact Option.noConfusion h
      rw [h17] at h
      simp only [] at h
      split at h
      · split at h
        · have hrec := parse_header_fields_ge _ _ _ _ _ h
          have g1 := read_int16_snd h16
          have g2 := read_int16_snd h17
          omega
        · injection h with h
          exact Except.noConfusion h
      · exact Option.noConfusion h
  · decide

/-- Witness for C6: in the decoding of c6buf the loop is re-entered at offset
    16 = declared length; the general bound applied there shows the second
    field consumes at least four further bytes (it ends at 28). -/
theorem claim6_witness :
    parse_header_fields c6buf Endian.big 16 16 16 [hfield18] =
      some (Except.ok ([hfield18, hfield18], 28)) ∧ 16 + 4 ≤ 28 :=
  ⟨by rfl, claim6_nonstrict_header_bound.1 c6buf Endian.big 16 16 16 [hfield18]
    [hfield18, hfield18] 28 (by decide) (by rfl)⟩

/-- Claim C7: a header field is valid exactly when its tag is 1 and both its
    declared length and its value length are 8; a parsed field violating this
    (wrong tag, or a length mismatch) makes the header loop stop with the
    invalid-header-field error, as on the two concrete version-4 buffers with
    a length-7 field and a tag-2 field. -/
theorem claim7_header_field_validity :
    (∀ f : headerField,
      f.valid = (f.tag == 1 && (f.length == 8 && f.value.length == 8))) ∧
    (∀ (b : List Nat) (e : Endian) (hl fuel p : Nat) (acc : List headerField)
      (tagv lenv : Int) (p1 p2 : Nat),
      p ≤ hl →
      read_int16 b p e = some (tagv, p1) →
      read_int16 b p1 e = some (lenv, p2) →
      p2 + toUint16 lenv ≤ b.length →
      (toUint16 tagv ≠ 1 ∨ toUint16 lenv ≠ 8) →
      parse_header_fields b e hl (fuel + 1) p acc =
        some (Except.error CCacheError.invalidHeaderField)) ∧
    ParseCCache 0 c7buf7 = ParseResult.fail { zeroCCache with Version := 4 }
      CCacheError.invalidHeaderField ∧
    ParseCCache 0 c7bufTag2 = ParseResult.fail { zeroCCache with Version := 4 }
      CCacheError.invalidHeaderField := by
  refine ⟨?_, ?_, by decide, by decide⟩
  · intro f
    rcases f with ⟨t, l, val⟩
    by_cases ht : t = 1 <;> by_cases hl8 : l = 8 <;> by_cases hv8 : val.length = 8 <;>
      simp [headerField.valid, headerFieldTagKDCOffset, ht, hl8, hv8]
  · intro b e hl fuel p acc tagv lenv p1 p2 hp h16 h17 hb hbad
    simp only [parse_header_fields]
    rw [if_pos hp, h16]
    simp only []
    rw [h17]
    simp only []
    rw [if_pos hb]
    have hval : headerField.valid
        { tag := toUint16 tagv, length := toUint16 lenv,
          value := (b.drop p2).take (toUint16 lenv) } = false := by
      rcases hbad with hbad | hbad
      · simp [headerField.valid, headerFieldTagKDCOffset, hbad]
      · by_cases ht : toUint16 tagv = 1 <;>
          simp [headerField.valid, headerFieldTagKDCOffset, ht, hbad]
    rw [hval]
    simp

/-- Witness for C7: the invalid-field statement applied inside the decoding
    of c7buf7 (tag 1, declared length 7). -/
theorem claim7_witness :
    parse_header_fields c7buf7 Endian.big 15 12 4 [] =
      some (Except.error CCacheError.invalidHeaderField) :=
  claim7_header_field_validity.2.1 c7buf7 Endian.big 15 11 4 [] 1 7 6 8
    (by decide) (by rfl) (by rfl) (by decide) (by decide)

/-- Claim C4: the version-1 principal decoder skips the name type (which
    stays 0) and decrements the decoded component count by one, while for any
    version other than 1 the name type is read first and the count is used as
    decoded; concretely the version-1 buffer c4buf (realm TEST, raw count 2
    including the realm, one component host, native little-endian order)
    decodes to realm TEST with exactly the single component host. -/
theorem claim4_v1_principal_quirk :
    (∀ (b : List Nat) (p : Nat) (e : Endian) (pr : principal) (pf : Nat),
      parse_principal b p 1 e = some (pr, pf) →
      ∃ (cnt : Int) (p1 : Nat),
        read_int32 b p e = some (cnt, p1) ∧
        pr.PrincipalName.NameType = 0 ∧
        pr.PrincipalName.NameString.length = (cnt - 1).toNat) ∧
    (∀ (b : List Nat) (p : Nat) (v : Nat) (e : Endian) (pr : principal) (pf : Nat),
      v ≠ 1 →
      parse_principal b p v e = some (pr, pf) →
      ∃ (nt : Int) (p1 : Nat) (cnt : Int) (p2 : Nat),
        read_int32 b p e = some (nt, p1) ∧
        read_int32 b p1 e = some (cnt, p2) ∧
        pr.PrincipalName.NameType = nt ∧
        pr.PrincipalName.NameString.length = cnt.toNat) ∧
    ParseCCache 120 c4buf = ParseResult.ok
      { Version := 1, Header := zeroHeader, DefaultPrincipal := c4principal,
        Credentials := [] } := by
  refine ⟨?_, ?_, by decide⟩
  · intro b p e pr pf h
    unfold parse_principal at h
    rw [if_neg (by decide : ¬ ((1 : Nat) ≠ 1))] at h
    simp only [] at h
    rcases h2 : read_int32 b p e with _ | ⟨cnt, p1⟩
    · rw [h2] at h
      exact Option.noConfusion h
    rw [h2] at h
    simp only [] at h
    rcases h3 : read_int32 b p1 e with _ | ⟨lenRealm, p3⟩
    · rw [h3] at h
      exact Option.noConfusion h
    rw [h3] at h
    simp only [] at h
    rcases h4 : read_Bytes b p3 lenRealm e with _ | ⟨realm, p4⟩
    · rw [h4] at h
      exact Option.noConfusion h
    rw [h4] at h
    simp only [] at h
    split at h
    · exact Option.noConfusion h
    rename_i comps p5 h5
    injection h with h
    injection h with hpr hpf
    subst hpr
    have hlen := parse_components_length _ _ _ _ _ h5
    exact ⟨cnt, p1, rfl, rfl, by simpa using hlen⟩
  · intro b p v e pr pf hv h
    unfold parse_principal at h
    rw [if_pos hv] at h
    rcases h1 : read_int32 b p e with _ | ⟨nt, p1⟩
    · rw [h1] at h
      exact Option.noConfusion h
    rw [h1] at h
    simp only [] at h
    rcases h2 : read_int32 b p1 e with _ | ⟨cnt, p2⟩
    · rw [h2] at h
      exact Option.noConfusion h
    rw [h2] at h
    simp only [] at h
    rcases h3 : read_int32 b p2 e with _ | ⟨lenRealm, p3⟩
    · rw [h3] at h
      exact Option.noConfusion h
    rw [h3] at h
    simp only [] at h
    rcases h4 : read_Bytes b p3 lenRealm e with _ | ⟨realm, p4⟩
    · rw [h4] at h
      exact Option.noConfusion h
    rw [h4] at h
    simp only [] at h
    split at h
    · exact Option.noConfusion h
    rename_i comps p5 h5
    injection h with h
    injection h with hpr hpf
    subst hpr
    have hlen := parse_components_length _ _ _ _ _ h5
    have hnc : (if v = 1 then cnt - 1 else cnt) = cnt := if_neg hv
    rw [hnc] at hlen
    exact ⟨nt, p1, cnt, p2, rfl, h2, rfl, by simpa using hlen⟩

/-- Witness for C4: both general statements applied to concrete version-1 and
    version-2 principal encodings of realm TEST with component host. -/
theorem claim4_witness :
    (∃ (cnt : Int) (p1 : Nat),
      read_int32 (c4buf.drop 2) 0 Endian.little = some (cnt, p1) ∧
      c4principal.PrincipalName.NameType = 0 ∧
      c4principal.PrincipalName.NameString.length = (cnt - 1).toNat) ∧
    (∃ (nt : Int) (p1 : Nat) (cnt : Int) (p2 : Nat),
      read_int32 (be32 7 ++ be32 1 ++ be32 4 ++ [84, 69, 83, 84] ++ be32 4 ++
        [104, 111, 115, 116]) 0 Endian.big = some (nt, p1) ∧
      read_int32 (be32 7 ++ be32 1 ++ be32 4 ++ [84, 69, 83, 84] ++ be32 4 ++
        [104, 111, 115, 116]) p1 Endian.big = some (cnt, p2) ∧
      ({ Realm := [84, 69, 83, 84],
         PrincipalName := { NameType := 7, NameString := [[104, 111, 115, 116]] } }
        : principal).PrincipalName.NameType = nt ∧
      ({ Realm := [84, 69, 83, 84],
         PrincipalName := { NameType := 7, NameString := [[104, 111, 115, 116]] } }
        : principal).PrincipalName.NameString.length = cnt.toNat) :=
  ⟨claim4_v1_principal_quirk.1 (c4buf.drop 2) 0 Endian.little c4principal 20 (by rfl),
   claim4_v1_principal_quirk.2.1
     (be32 7 ++ be32 1 ++ be32 4 ++ [84, 69, 83, 84] ++ be32 4 ++ [104, 111, 115, 116])
     0 2 Endian.big
     { Realm := [84, 69, 83, 84],
       PrincipalName := { NameType := 7, NameString := [[104, 111, 115, 116]] } }
     24 (by decide) (by rfl)⟩

/-- Claim C5: for version 3 the credential decoder reads the 16-bit key type
    twice in sequence and keeps the second value; for any other version it
    reads it exactly once (the key-value read follows directly after the
    single 16-bit read); concretely, a version-3 credential whose two
    key-type fields hold 7 and 9 decodes with key type 9, while the same
    record without the repetition decodes under version 2 with key type 7. -/
theorem claim5_v3_double_keytype :
    (∀ (b : List Nat) (p : Nat) (e : Endian) (cred : credential) (pf : Nat),
      parse_credential b p 3 e = some (cred, pf) →
      ∃ (cl : principal) (p1 : Nat) (sv : principal) (p2 : Nat) (k1 : Int) (p3 : Nat)
        (k2 : Int) (p4 : Nat) (kv : List Nat) (p5 : Nat),
        parse_principal b p 3 e = some (cl, p1) ∧
        parse_principal b p1 3 e = some (sv, p2) ∧
        read_int16 b p2 e = some (k1, p3) ∧
        read_int16 b p3 e = some (k2, p4) ∧
        read_data b p4 e = some (kv, p5) ∧
        cred.Key.KeyType = k2 ∧ cred.Key.KeyValue = kv) ∧
    (∀ (b : List Nat) (p : Nat) (v : Nat) (e : Endian) (cred : credential) (pf : Nat),
      v ≠ 3 →
      parse_credential b p v e = some (cred, pf) →
      ∃ (cl : principal) (p1 : Nat) (sv : principal) (p2 : Nat) (k1 : Int) (p3 : Nat)
        (kv : List Nat) (p4 : Nat),
        parse_principal b p v e = some (cl, p1) ∧
        parse_principal b p1 v e = some (sv, p2) ∧
        read_int16 b p2 e = some (k1, p3) ∧
        read_data b p3 e = some (kv, p4) ∧
        cred.Key.KeyType = k1 ∧ cred.Key.KeyValue = kv) ∧
    (parse_credential c5v3cred 0 3 Endian.big = some (minCred 9, 69) ∧
     parse_credential c5v2cred 0 2 Endian.big = some (minCred 7, 67)) := by
  refine ⟨?_, ?_, by decide, by decide⟩
  · intro b p e cred pf h
    unfold parse_credential at h
    rcases h1 : parse_principal b p 3 e with _ | ⟨client, p1⟩
    · rw [h1] at h
      exact Option.noConfusion h
    rw [h1] at h
    simp only [] at h
    rcases h2 : parse_principal b p1 3 e with _ | ⟨server, p2⟩
    · rw [h2] at h
      exact Option.noConfusion h
    rw [h2] at h
    simp only [] at h
    rcases h3 : read_int16 b p2 e with _ | ⟨kt1, p3⟩
    · rw [h3] at h
      exact Option.noConfusion h
    rw [h3] at h
    simp only [] at h
    rw [if_pos trivial] at h
    rcases h4 : read_int16 b p3 e with _ | ⟨kt, p4⟩
    · rw [h4] at h
      exact Option.noConfusion h
    rw [h4] at h
    simp only [] at h
    rcases h5 : read_data b p4 e with _ | ⟨kv, p5⟩
    · rw [h5] at h
      exact Option.noConfusion h
    rw [h5] at h
    simp only [] at h
    rcases h6 : read_timestamp b p5 e with _ | ⟨authTime, p6⟩
    · rw [h6] at h
      exact Option.noConfusion h
    rw [h6] at h
    simp only [] at h
    rcases h7 : read_timestamp b p6 e with _ | ⟨startTime, p7⟩
    · rw [h7] at h
      exact Option.noConfusion h
    rw [h7] at h
    simp only [] at h
    rcases h8 : read_timestamp b p7 e with _ | ⟨endTime, p8⟩
    · rw [h8] at h
      exact Option.noConfusion h
    rw [h8] at h
    simp only [] at h
    rcases h9 : read_timestamp b p8 e with _ | ⟨renewTill, p9⟩
    · rw [h9] at h
      exact Option.noConfusion h
    rw [h9] at h
    simp only [] at h
    rcases h10 : read_int8 b p9 e with _ | ⟨ik, p10⟩
    · rw [h10] at h
      exact Option.noConfusion h
    rw [h10] at h
    simp only [] at h
    rcases h11 : read_Bytes b p10 4 e with _ | ⟨tf, p11⟩
    · rw [h11] at h
      exact Option.noConfusion h
    rw [h11] at h
    simp only [] at h
    rcases h12 : read_int32 b p11 e with _ | ⟨nAddr, p12⟩
    · rw [h12] at h
      exact Option.noConfusion h
    rw [h12] at h
    simp only [] at h
    split at h
    · exact Option.noConfusion h
    rcases h13 : parse_addresses b e nAddr.toNat p12 [] with _ | ⟨addrs, p13⟩
    · rw [h13] at h
      exact Option.noConfusion h
    rw [h13] at h
    simp only [] at h
    rcases h14 : read_int32 b p13 e with _ | ⟨nAuth, p14⟩
    · rw [h14] at h
      exact Option.noConfusion h
    rw [h14] at h
    simp only [] at h
    split at h
    · exact Option.noConfusion h
    rcases h15 : parse_authdata b e nAuth.toNat p14 [] with _ | ⟨ads, p15⟩
    · rw [h15] at h
      exact Option.noConfusion h
    rw [h15] at h
    simp only [] at h
    rcases h16 : read_data b p15 e with _ | ⟨tkt, p16⟩
    · rw [h16] at h
      exact Option.noConfusion h
    rw [h16] at h
    simp only [] at h
    rcases h17 : read_data b p16 e with _ | ⟨tkt2, p17⟩
    · rw [h17] at h
      exact Option.noConfusion h
    rw [h17] at h
    simp only [] at h
    injection h with h
    injection h with hcred hpf
    subst hcred
    exact ⟨client, p1, server, p2, kt1, p3, kt, p4, kv, p5, rfl, h2, h3, h4, h5,
      rfl, rfl⟩
  · intro b p v e cred pf hv h
    unfold parse_credential at h
    rcases h1 : parse_principal b p v e with _ | ⟨client, p1⟩
    · rw [h1] at h
      exact Option.noConfusion h
    rw [h1] at h
    simp only [] at h
    rcases h2 : parse_principal b p1 v e with _ | ⟨server, p2⟩
    · rw [h2] at h
      exact Option.noConfusion h
    rw [h2] at h
    simp only [] at h
    rcases h3 : read_int16 b p2 e with _ | ⟨kt1, p3⟩
    · rw [h3] at h
      exact Option.noConfusion h
    rw [h3] at h
    simp only [] at h
    rw [if_neg hv] at h
    simp only [] at h
    rcases h5 : read_data b p3 e with _ | ⟨kv, p5⟩
    · rw [h5] at h
      exact Option.noConfusion h
    rw [h5] at h
    simp only [] at h
    rcases h6 : read_timestamp b p5 e with _ | ⟨authTime, p6⟩
    · rw [h6] at h
      exact Option.noConfusion h
    rw [h6] at h
    simp only [] at h
    rcases h7 : read_timestamp b p6 e with _ | ⟨startTime, p7⟩
    · rw [h7] at h
      exact Option.noConfusion h
    rw [h7] at h
    simp only [] at h
    rcases h8 : read_timestamp b p7 e with _ | ⟨endTime, p8⟩
    · rw [h8] at h
      exact Option.noConfusion h
    rw [h8] at h
    simp only [] at h
    rcases h9 : read_timestamp b p8 e with _ | ⟨renewTill, p9⟩
    · rw [h9] at h
      exact Option.noConfusion h
    rw [h9] at h
    simp only [] at h
    rcases h10 : read_int8 b p9 e with _ | ⟨ik, p10⟩
    · rw [h10] at h
      exact Option.noConfusion h
    rw [h10] at h
    simp only [] at h
    rcases h11 : read_Bytes b p10 4 e with _ | ⟨tf, p11⟩
    · rw [h11] at h
      exact Option.noConfusion h
    rw [h11] at h
    simp only [] at h
    rcases h12 : read_int32 b p11 e with _ | ⟨nAddr, p12⟩
    · rw [h12] at h
      exact Option.noConfusion h
    rw [h12] at h
    simp only [] at h
    split at h
    · exact Option.noConfusion h
    rcases h13 : parse_addresses b e nAddr.toNat p12 [] with _ | ⟨addrs, p13⟩
    · rw [h13] at h
      exact Option.noConfusion h
    rw [h13] at h
    simp only [] at h
    rcases h14 : read_int32 b p13 e with _ | ⟨nAuth, p14⟩
    · rw [h14] at h
      exact Option.noConfusion h
    rw [h14] at h
    simp only [] at h
    split at h
    · exact Option.noConfusion h
    rcases h15 : parse_authdata b e nAuth.toNat p14 [] with _ | ⟨ads, p15⟩
    · rw [h15] at h
      exact Option.noConfusion h
    rw [h15] at h
    simp only [] at h
    rcases h16 : read_data b p15 e with _ | ⟨tkt, p16⟩
    · rw [h16] at h
      exact Option.noConfusion h
    rw [h16] at h
    simp only [] at h
    rcases h17 : read_data b p16 e with _ | ⟨tkt2, p17⟩
    · rw [h17] at h
      exact Option.noConfusion h
    rw [h17] at h
    simp only [] at h
    injection h with h
    injection h with hcred hpf
    subst hcred
    exact ⟨client, p1, server, p2, kt1, p3, kv, p5, rfl, h2, h3, h5, rfl, rfl⟩

/-- Witness for C5: both general statements applied to the concrete
    version-3 and version-2 credential records c5v3cred and c5v2cred. -/
theorem claim5_witness :
    (∃ (cl : principal) (p1 : Nat) (sv : principal) (p2 : Nat) (k1 : Int) (p3 : Nat)
      (k2 : Int) (p4 : Nat) (kv : List Nat) (p5 : Nat),
      parse_principal c5v3cred 0 3 Endian.big = some (cl, p1) ∧
      parse_principal c5v3cred p1 3 Endian.big = some (sv, p2) ∧
      read_int16 c5v3cred p2 Endian.big = some (k1, p3) ∧
      read_int16 c5v3cred p3 Endian.big = some (k2, p4) ∧
      read_data c5v3cred p4 Endian.big = some (kv, p5) ∧
      (minCred 9).Key.KeyType = k2 ∧ (minCred 9).Key.KeyValue = kv) ∧
    (∃ (cl : principal) (p1 : Nat) (sv : principal) (p2 : Nat) (k1 : Int) (p3 : Nat)
      (kv : List Nat) (p4 : Nat),
      parse_principal c5v2cred 0 2 Endian.big = some (cl, p1) ∧
      parse_principal c5v2cred p1 2 Endian.big = some (sv, p2) ∧
      read_int16 c5v2cred p2 Endian.big = some (k1, p3) ∧
      read_data c5v2cred p3 Endian.big = some (kv, p4) ∧
      (minCred 7).Key.KeyType = k1 ∧ (minCred 7).Key.KeyValue = kv) :=
  ⟨claim5_v3_double_keytype.1 c5v3cred 0 Endian.big (minCred 9) 69 (by decide),
   claim5_v3_double_keytype.2.1 c5v2cred 0 2 Endian.big (minCred 7) 67 (by decide)
     (by decide)⟩
